import Mathlib

/-!
Verification of the durable priority queue in `src/lib/queue-manager.ts`
(`QueueManager`): data model, persistence, delivery/retry loop and quota
eviction, embedded shallowly and checked against the specification.

Modelling conventions:
* JavaScript runtime values that can reach a persisted record are modelled by
  `JVal` (string, number, some other defined value, or `undefined`).
* The persistence medium (`localStorage`) is modelled by an `Option Blob`
  cell plus a `Medium`: a function deciding, for each serialized record, if
  `setItem` succeeds, throws `QuotaExceededError`, or throws another error.
* Every `try`/`catch` of the source is translated by total functions: the
  source catches every exception it can raise at each boundary, so each
  embedded operation returns a state instead of an exception.
* `Math.ceil(length * 0.2 * attempt)` is `(length * attempt + 4) / 5` in
  exact arithmetic; for `attempt = 1` the double-precision product never
  rounds across an integer for any attainable length, so the embedding uses
  the exact value.
* The nondeterministic environment (generated ids, clock, per-item transport
  outcome) is passed as explicit parameters.
-/

/-- A JavaScript value as far as the queue's validator can distinguish it:
a string, a number, some other defined value, or `undefined`. -/
inductive JVal where
  | str (s : String)
  | num (n : Int)
  | other
  | undefined
deriving DecidableEq

/-- `typeof v === 'string'`. -/
def JVal.isStr : JVal → Bool
  | .str _ => true
  | _ => false

/-- `typeof v === 'number'`. -/
def JVal.isNum : JVal → Bool
  | .num _ => true
  | _ => false

/-- `QueueItem` of `src/types/index.ts`: id, timestamp, payload, priority
(CRITICAL = 1, HIGH = 2, NORMAL = 3), retry counter. -/
structure QueueItem where
  id : String
  timestamp : Int
  data : JVal
  priority : Int
  retries : Int
deriving DecidableEq

/-- One entry of a persisted record before validation: each of the five
fields may hold any JavaScript value. -/
structure RawItem where
  id : JVal
  timestamp : JVal
  data : JVal
  priority : JVal
  retries : JVal
deriving DecidableEq

/-- The content stored under the `ga_queue` key: unparsable text, a parsed
value that is not an array, or an array of raw items. -/
inductive Blob where
  | corrupt
  | nonArray
  | arr (items : List RawItem)
deriving DecidableEq

/-- Outcome of one `localStorage.setItem` call. -/
inductive WriteResult where
  | ok
  | quotaExceeded
  | otherError
deriving DecidableEq

/-- Behaviour of the persistence medium: the outcome of writing a given
serialized record. -/
abbrev Medium := List RawItem → WriteResult

/-- A medium on which every write succeeds. -/
def okMedium : Medium := fun _ => .ok

namespace QueueManager

/-- `QueueManager.MAX_RETRIES`. -/
def MAX_RETRIES : Int := 3

/-- The observable state of one `QueueManager` together with its storage
cell: the in-memory queue, the stored blob, the log of attempted
`setItem` writes (each entry the record passed to `setItem`), and the count
of `Failed to resolve storage overflow` log lines. -/
structure QMState where
  queue : List QueueItem
  store : Option Blob
  saveLog : List (List RawItem)
  overflowFailures : Nat
deriving DecidableEq

/-- The `dataToSave` projection of `saveToStorage`: one item stripped to
exactly the five persisted fields. -/
def toRaw (it : QueueItem) : RawItem :=
  { id := .str it.id
    timestamp := .num it.timestamp
    data := it.data
    priority := .num it.priority
    retries := .num it.retries }

/-- The validation filter of `loadFromStorage`, combined with reading the
fields back: an item with a string `id`, numeric `timestamp`, numeric
`priority`, numeric `retries` and a defined `data` field is accepted,
anything else is dropped. -/
def fromRaw (it : RawItem) : Option QueueItem :=
  match it.id, it.timestamp, it.priority, it.retries with
  | .str i, .num t, .num p, .num r =>
      if it.data = .undefined then none else some ⟨i, t, it.data, p, r⟩
  | _, _, _, _ => none

/-- `loadFromStorage`: read the stored blob, returning the loaded queue and
the blob left in storage. Missing record: queue stays empty. Unparsable
record: the `catch` removes the record and the queue stays empty. Parsed
non-array: nothing happens. Array: items failing validation are filtered
out, the record is left in place. -/
def loadFromStorage (store : Option Blob) : List QueueItem × Option Blob :=
  match store with
  | none => ([], none)
  | some .corrupt => ([], none)
  | some .nonArray => ([], some .nonArray)
  | some (.arr items) => (items.filterMap fromRaw, some (.arr items))

/-- The constructor: a fresh `QueueManager` over a given storage cell runs
`loadFromStorage`. -/
def initQM (store : Option Blob) : QMState :=
  let r := loadFromStorage store
  { queue := r.1, store := r.2, saveLog := [], overflowFailures := 0 }

/-- One `localStorage.setItem` attempt inside `saveToStorage`: serialize the
queue, log the attempt, update the stored blob when the write succeeds, and
report the outcome. -/
def attemptWrite (m : Medium) (st : QMState) : WriteResult × QMState :=
  let dataToSave := st.queue.map toRaw
  let st' := { st with saveLog := st.saveLog ++ [dataToSave] }
  match m dataToSave with
  | .ok => (.ok, { st' with store := some (.arr dataToSave) })
  | .quotaExceeded => (.quotaExceeded, st')
  | .otherError => (.otherError, st')

/-- The recursion of `handleStorageOverflow`. In the source, `saveToStorage`
catches every exception it can raise, so the `catch` inside the overflow
loop is unreachable and the loop body always `return`s at its first
iteration with `attempt = 1`: each round removes
`Math.ceil(length * 0.2)` items from the front of the queue, calls
`saveToStorage` again, and a quota failure of that nested save re-enters
`handleStorageOverflow` recursively. A call with an empty queue skips the
loop and logs the overflow-failure line. The fuel argument bounds the
recursion depth; every round removes at least one item, so fuel equal to
the queue length already reaches the base case. -/
def overflowAux (m : Medium) : Nat → QMState → QMState
  | 0, st => { st with overflowFailures := st.overflowFailures + 1 }
  | fuel + 1, st =>
    if 0 < st.queue.length then
      let itemsToRemove := (st.queue.length + 4) / 5
      let st₁ := { st with queue := st.queue.drop itemsToRemove }
      match attemptWrite m st₁ with
      | (.quotaExceeded, st₂) => overflowAux m fuel st₂
      | (_, st₂) => st₂
    else { st with overflowFailures := st.overflowFailures + 1 }

/-- `handleStorageOverflow`. -/
def handleStorageOverflow (m : Medium) (st : QMState) : QMState :=
  overflowAux m st.queue.length st

/-- `saveToStorage`: attempt the write; a `QuotaExceededError` triggers
`handleStorageOverflow`, any other failure is logged and abandoned. -/
def saveToStorage (m : Medium) (st : QMState) : QMState :=
  match attemptWrite m st with
  | (.quotaExceeded, st') => handleStorageOverflow m st'
  | (_, st') => st'

/-- `removeFromQueue`: drop every item with the given id, then persist. -/
def removeFromQueue (m : Medium) (i : String) (st : QMState) : QMState :=
  saveToStorage m { st with queue := st.queue.filter fun item => item.id ≠ i }

/-- `enqueue`: build the item with a fresh id, the current timestamp and
`retries = 0`, push it, persist. The generated id and clock reading are
explicit parameters. -/
def enqueue (m : Medium) (id : String) (ts : Int) (data : JVal) (priority : Int)
    (st : QMState) : QMState :=
  let queueItem : QueueItem :=
    { id := id, timestamp := ts, data := data, priority := priority, retries := 0 }
  saveToStorage m { st with queue := st.queue ++ [queueItem] }

/-- Stable insertion by ascending `priority`, inserting into the sorted
image of the elements that followed `x` in the original list: `x` goes
before the first element whose priority is not strictly smaller, so
elements of equal priority keep their original relative order. -/
def insertByPriority (x : QueueItem) : List QueueItem → List QueueItem
  | [] => [x]
  | y :: ys => if y.priority < x.priority then y :: insertByPriority x ys else x :: y :: ys

/-- The in-place `this.queue.sort((a, b) => a.priority - b.priority)`:
JavaScript `Array.prototype.sort` is stable, and a stable sort by one key is
unique, so stable insertion sort computes the same list. -/
def sortByPriority : List QueueItem → List QueueItem
  | [] => []
  | x :: xs => insertByPriority x (sortByPriority xs)

/-- One iteration of the `processQueue` loop, for the snapshot element
`item`. On transport success, remove the item by id and persist. On
transport failure, `item.retries++` acts on the object shared with the live
queue (modelled as an update of the entry with the same id), and the item is
removed (with a persist) exactly when the new counter reaches
`MAX_RETRIES`; otherwise nothing is persisted. -/
def processItem (m : Medium) (send : QueueItem → Bool) (st : QMState)
    (item : QueueItem) : QMState :=
  if send item then
    removeFromQueue m item.id st
  else
    let newRetries := item.retries + 1
    let st' := { st with
      queue := st.queue.map fun it =>
        if it.id = item.id then { it with retries := newRetries } else it }
    if MAX_RETRIES ≤ newRetries then removeFromQueue m item.id st' else st'

/-- `processQueue`: sort the live queue in place, iterate a snapshot of the
sorted sequence, handling each item's outcome independently. Returns the
final state together with the list of items whose data was handed to the
transport, in attempt order. `send` is the environment's per-item transport
outcome for this drain. -/
def processQueue (m : Medium) (send : QueueItem → Bool) (st : QMState) :
    QMState × List QueueItem :=
  let sorted := sortByPriority st.queue
  sorted.foldl (fun acc item => (processItem m send acc.1 item, acc.2 ++ [item]))
    ({ st with queue := sorted }, [])

/-- Modelled from the spec: the overflow policy as the specification words
it (claim C4) — attempts 1..5 remove `ceil(length * 0.2 * attempt)` items
from the front, the save is retried after each cut, the first success stops,
and exhausting the attempts logs a failure. Written only to compare the
specified policy with `handleStorageOverflow`. -/
def specOverflow (m : Medium) : List Nat → QMState → QMState
  | [], st => { st with overflowFailures := st.overflowFailures + 1 }
  | attempt :: rest, st =>
    if 0 < st.queue.length then
      let itemsToRemove := (st.queue.length * attempt + 4) / 5
      let st₁ := { st with queue := st.queue.drop itemsToRemove }
      match attemptWrite m st₁ with
      | (.ok, st₂) => st₂
      | (_, st₂) => specOverflow m rest st₂
    else { st with overflowFailures := st.overflowFailures + 1 }

/-- Modelled from the spec: the five attempts of the specified overflow
policy. -/
def specOverflowPolicy (m : Medium) (st : QMState) : QMState :=
  specOverflow m [1, 2, 3, 4, 5] st

/-- The validation predicate of `loadFromStorage`, exactly as the source
writes it: string `id`, numeric `timestamp`, numeric `priority`, numeric
`retries`, and a `data` field that is not `undefined`. -/
def validItem (it : RawItem) : Bool :=
  it.id.isStr && it.timestamp.isNum && it.priority.isNum &&
    it.retries.isNum && it.data ≠ .undefined

/-- One producer call to `enqueue` together with the environment's fresh id
and clock reading for it. -/
structure EnqInput where
  id : String
  ts : Int
  data : JVal
  priority : Int
deriving DecidableEq

/-- A sequence of `enqueue` calls. -/
def enqueueAll (m : Medium) (inputs : List EnqInput) (st : QMState) : QMState :=
  inputs.foldl (fun s i => enqueue m i.id i.ts i.data i.priority s) st

/-- A medium whose quota holds at most six serialized items. -/
def quotaAbove6 : Medium := fun l => if l.length ≤ 6 then .ok else .quotaExceeded

/-- Ten enqueued items, all NORMAL priority. -/
def tenItems : List QueueItem := (List.range 10).map fun i => ⟨toString i, i, .num 0, 3, 0⟩

/-- A medium whose quota holds at most two serialized items. -/
def quotaAbove2 : Medium := fun l => if 3 ≤ l.length then .quotaExceeded else .ok

/-- The retry-counter increment a failed delivery applies to an item. -/
def bump (it : QueueItem) : QueueItem :=
  { it with retries := it.retries + 1 }

/-! ### Lemmas about the stable priority sort -/

theorem insertByPriority_perm (x : QueueItem) :
    ∀ l : List QueueItem, List.Perm (insertByPriority x l) (x :: l)
  | [] => .refl _
  | y :: ys => by
    by_cases h : y.priority < x.priority
    · simpa [insertByPriority, h] using
        ((insertByPriority_perm x ys).cons y).trans (List.Perm.swap x y ys)
    · simp [insertByPriority, h]

theorem sortByPriority_perm : ∀ l : List QueueItem, List.Perm (sortByPriority l) l
  | [] => .refl _
  | x :: xs => (insertByPriority_perm x _).trans ((sortByPriority_perm xs).cons x)

theorem pairwise_insertByPriority {x : QueueItem} :
    ∀ {l : List QueueItem}, l.Pairwise (fun a b => a.priority ≤ b.priority) →
      (insertByPriority x l).Pairwise (fun a b => a.priority ≤ b.priority)
  | [], _ => by simp [insertByPriority]
  | y :: ys, h => by
    by_cases hc : y.priority < x.priority
    · rw [insertByPriority, if_pos hc]
      refine List.Pairwise.cons (fun z hz => ?_) (pairwise_insertByPriority (List.pairwise_cons.mp h).2)
      rcases List.mem_cons.mp ((insertByPriority_perm x ys).mem_iff.mp hz) with rfl | hz
      · omega
      · exact (List.pairwise_cons.mp h).1 z hz
    · rw [insertByPriority, if_neg hc]
      refine List.Pairwise.cons (fun z hz => ?_) h
      rcases List.mem_cons.mp hz with rfl | hz
      · omega
      · have := (List.pairwise_cons.mp h).1 z hz
        omega

theorem sortByPriority_pairwise :
    ∀ l : List QueueItem, (sortByPriority l).Pairwise (fun a b => a.priority ≤ b.priority)
  | [] => .nil
  | x :: xs => pairwise_insertByPriority (sortByPriority_pairwise xs)

theorem filter_insertByPriority (x : QueueItem) (p : Int) :
    ∀ l : List QueueItem,
      (insertByPriority x l).filter (fun y => y.priority = p) =
        if x.priority = p then x :: l.filter (fun y => y.priority = p)
        else l.filter (fun y => y.priority = p)
  | [] => by by_cases hx : x.priority = p <;> simp [insertByPriority, List.filter_cons, hx]
  | y :: ys => by
    by_cases hc : y.priority < x.priority
    · rw [insertByPriority, if_pos hc]
      by_cases hx : x.priority = p
      · have hy : ¬ y.priority = p := by omega
        simp [List.filter_cons, hx, hy, filter_insertByPriority x p ys]
      · by_cases hy : y.priority = p <;>
          simp [List.filter_cons, hx, hy, filter_insertByPriority x p ys]
    · rw [insertByPriority, if_neg hc]
      by_cases hx : x.priority = p <;> simp [List.filter_cons, hx]

theorem sortByPriority_filter (p : Int) :
    ∀ l : List QueueItem,
      (sortByPriority l).filter (fun y => y.priority = p) =
        l.filter (fun y => y.priority = p)
  | [] => rfl
  | x :: xs => by
    rw [sortByPriority, filter_insertByPriority, sortByPriority_filter p xs]
    by_cases hx : x.priority = p <;> simp [List.filter_cons, hx]

/-! ### Lemmas about persistence and overflow -/

theorem attemptWrite_eq (m : Medium) (st : QMState) :
    attemptWrite m st =
      (m (st.queue.map toRaw),
        { st with
          saveLog := st.saveLog ++ [st.queue.map toRaw]
          store := if m (st.queue.map toRaw) = .ok then some (.arr (st.queue.map toRaw))
                   else st.store }) := by
  cases h : m (st.queue.map toRaw) <;> simp [attemptWrite, h]

theorem attemptWrite_queue (m : Medium) (st : QMState) :
    ((attemptWrite m st).2).queue = st.queue := by
  rw [attemptWrite_eq]

theorem handleStorageOverflow_unfold (m : Medium) (st : QMState) :
    handleStorageOverflow m st = overflowAux m st.queue.length st := rfl

theorem overflowAux_zero (m : Medium) (st : QMState) :
    overflowAux m 0 st = { st with overflowFailures := st.overflowFailures + 1 } := rfl

theorem overflowAux_succ_pos (m : Medium) (n : Nat) (st : QMState) (h : 0 < st.queue.length) :
    overflowAux m (n + 1) st =
      match attemptWrite m { st with queue := st.queue.drop ((st.queue.length + 4) / 5) } with
      | (.quotaExceeded, st₂) => overflowAux m n st₂
      | (_, st₂) => st₂ := by
  rw [overflowAux, if_pos h]

theorem overflowAux_succ_nil (m : Medium) (n : Nat) (st : QMState) (h : ¬ 0 < st.queue.length) :
    overflowAux m (n + 1) st = { st with overflowFailures := st.overflowFailures + 1 } := by
  rw [overflowAux, if_neg h]

theorem saveToStorage_unfold (m : Medium) (st : QMState) :
    saveToStorage m st =
      match attemptWrite m st with
      | (.quotaExceeded, st') => handleStorageOverflow m st'
      | (_, st') => st' := rfl

theorem overflowAux_queue_drop (m : Medium) :
    ∀ (fuel : Nat) (st : QMState), ∃ k, (overflowAux m fuel st).queue = st.queue.drop k := by
  intro fuel
  induction fuel with
  | zero => exact fun st => ⟨0, rfl⟩
  | succ n ih =>
    intro st
    by_cases h : 0 < st.queue.length
    · rw [overflowAux_succ_pos m n st h]
      rcases hA : attemptWrite m { st with queue := st.queue.drop ((st.queue.length + 4) / 5) }
        with ⟨res, st₂⟩
      have hq2 : st₂.queue = st.queue.drop ((st.queue.length + 4) / 5) := by
        have := attemptWrite_queue m { st with queue := st.queue.drop ((st.queue.length + 4) / 5) }
        rw [hA] at this
        exact this
      cases res with
      | ok => exact ⟨_, hq2⟩
      | otherError => exact ⟨_, hq2⟩
      | quotaExceeded =>
        rcases ih st₂ with ⟨k, hk⟩
        exact ⟨(st.queue.length + 4) / 5 + k,
          by simp [hk, hq2, List.drop_drop, Nat.add_comm]⟩
    · rw [overflowAux_succ_nil m n st h]
      exact ⟨0, rfl⟩

theorem saveToStorage_queue_drop (m : Medium) (st : QMState) :
    ∃ k, (saveToStorage m st).queue = st.queue.drop k := by
  rw [saveToStorage_unfold]
  rcases hA : attemptWrite m st with ⟨res, st'⟩
  have hq : st'.queue = st.queue := by
    have := attemptWrite_queue m st
    rw [hA] at this
    exact this
  cases res with
  | ok => exact ⟨0, hq⟩
  | otherError => exact ⟨0, hq⟩
  | quotaExceeded =>
    rcases overflowAux_queue_drop m st'.queue.length st' with ⟨k, hk⟩
    refine ⟨k, ?_⟩
    show (handleStorageOverflow m st').queue = List.drop k st.queue
    rw [handleStorageOverflow_unfold, hk, hq]

theorem saveToStorage_okMedium (st : QMState) :
    saveToStorage okMedium st =
      { st with
        store := some (.arr (st.queue.map toRaw))
        saveLog := st.saveLog ++ [st.queue.map toRaw] } := rfl

theorem removeFromQueue_okMedium (i : String) (st : QMState) :
    removeFromQueue okMedium i st =
      { st with
        queue := st.queue.filter fun item => item.id ≠ i
        store := some (.arr ((st.queue.filter fun item => item.id ≠ i).map toRaw))
        saveLog := st.saveLog ++ [(st.queue.filter fun item => item.id ≠ i).map toRaw] } := rfl

/-! ### Lemmas about the drain loop -/

theorem processQueue_foldl (m : Medium) (send : QueueItem → Bool) :
    ∀ (s : List QueueItem) (st : QMState) (tr : List QueueItem),
      s.foldl (fun acc item => (processItem m send acc.1 item, acc.2 ++ [item])) (st, tr) =
        (s.foldl (processItem m send) st, tr ++ s)
  | [], st, tr => by simp
  | x :: xs, st, tr => by
    simp [List.foldl_cons,
      processQueue_foldl m send xs (processItem m send st x) (tr ++ [x])]

theorem processQueue_eq (m : Medium) (send : QueueItem → Bool) (st : QMState) :
    processQueue m send st =
      ((sortByPriority st.queue).foldl (processItem m send)
          { st with queue := sortByPriority st.queue },
        sortByPriority st.queue) := by
  show (sortByPriority st.queue).foldl
      (fun acc item => (processItem m send acc.1 item, acc.2 ++ [item]))
      ({ st with queue := sortByPriority st.queue }, []) = _
  rw [processQueue_foldl]
  simp

theorem foldl_success_queue_nil (m : Medium) (send : QueueItem → Bool)
    (hsend : ∀ it, send it = true) :
    ∀ (s : List QueueItem) (st : QMState),
      (∀ x ∈ st.queue, x.id ∈ s.map (·.id)) →
      (s.foldl (processItem m send) st).queue = [] := by
  intro s
  induction s with
  | nil =>
    intro st h
    exact List.eq_nil_iff_forall_not_mem.mpr fun x hx => by simpa using h x hx
  | cons x xs ih =>
    intro st h
    rw [List.foldl_cons]
    have hx : processItem m send st x = removeFromQueue m x.id st := by
      rw [processItem, if_pos (hsend x)]
    rw [hx]
    apply ih
    intro y hy
    obtain ⟨k, hk⟩ :=
      saveToStorage_queue_drop m { st with queue := st.queue.filter fun item => item.id ≠ x.id }
    have hy2 : y ∈ (st.queue.filter fun item => item.id ≠ x.id).drop k := by
      have he : (removeFromQueue m x.id st).queue =
          (st.queue.filter fun item => item.id ≠ x.id).drop k := hk
      rwa [he] at hy
    have hy3 : y ∈ st.queue.filter fun item => item.id ≠ x.id := List.mem_of_mem_drop hy2
    have hy4 : y ∈ st.queue := List.mem_of_mem_filter hy3
    have hyne : y.id ≠ x.id := by simpa using List.of_mem_filter hy3
    have hmem := h y hy4
    simp only [List.map_cons, List.mem_cons] at hmem
    rcases hmem with hmem | hmem
    · exact absurd hmem hyne
    · exact hmem

theorem map_update_of_not_mem (i : String) (r : Int) :
    ∀ {l : List QueueItem}, i ∉ l.map (·.id) →
      (l.map fun it => if it.id = i then { it with retries := r } else it) = l
  | [], _ => rfl
  | y :: ys, h => by
    have h1 : ¬ (i = y.id ∨ i ∈ ys.map (·.id)) := by simpa using h
    have hy : ¬ y.id = i := fun he => h1 (Or.inl he.symm)
    have hys : i ∉ ys.map (·.id) := fun hm => h1 (Or.inr hm)
    simp [hy, map_update_of_not_mem i r hys]

theorem filter_ne_of_not_mem (i : String) :
    ∀ {l : List QueueItem}, i ∉ l.map (·.id) →
      (l.filter fun item => item.id ≠ i) = l
  | [], _ => rfl
  | y :: ys, h => by
    have h1 : ¬ (i = y.id ∨ i ∈ ys.map (·.id)) := by simpa using h
    have hy : y.id ≠ i := fun he => h1 (Or.inl he.symm)
    have hys : i ∉ ys.map (·.id) := fun hm => h1 (Or.inr hm)
    rw [List.filter_cons, if_pos (by simpa using hy), filter_ne_of_not_mem i hys]

theorem foldl_fail_queue :
    ∀ (s done : List QueueItem) (st : QMState),
      st.queue = done ++ s →
      ((done ++ s).map (·.id)).Nodup →
      (s.foldl (processItem okMedium fun _ => false) st).queue =
        done ++ (s.map bump).filter fun it => it.retries < MAX_RETRIES
  | [], done, st, hq, _ => by simpa using hq
  | x :: xs, done, st, hq, hnd => by
    have hnd' : (done.map (·.id) ++ x.id :: xs.map (·.id)).Nodup := by simpa using hnd
    have hdone : x.id ∉ done.map (·.id) := by
      have hd := List.disjoint_of_nodup_append hnd'
      exact fun hmem => hd hmem (by simp)
    have hxs : x.id ∉ xs.map (·.id) := by
      have := (List.nodup_append.mp hnd').2.1
      simpa using (List.nodup_cons.mp this).1
    have hqueue : (st.queue.map fun it =>
        if it.id = x.id then { it with retries := x.retries + 1 } else it) =
        done ++ bump x :: xs := by
      rw [hq, List.map_append, List.map_cons, map_update_of_not_mem x.id _ hdone,
        map_update_of_not_mem x.id _ hxs, if_pos rfl]
      rfl
    rw [List.foldl_cons]
    have hsend : (fun (_ : QueueItem) => false) x = false := rfl
    by_cases hret : MAX_RETRIES ≤ x.retries + 1
    · have hstep : processItem okMedium (fun _ => false) st x =
          removeFromQueue okMedium x.id
            { st with queue := done ++ bump x :: xs } := by
        rw [processItem]
        simp only [Bool.false_eq_true, if_false, hqueue, if_pos hret]
      have hq2 : (removeFromQueue okMedium x.id
          { st with queue := done ++ bump x :: xs }).queue = done ++ xs := by
        rw [removeFromQueue_okMedium]
        show ((done ++ bump x :: xs).filter fun item => item.id ≠ x.id) = done ++ xs
        rw [List.filter_append, filter_ne_of_not_mem x.id hdone, List.filter_cons]
        have hb : (decide ((bump x).id ≠ x.id)) = false := by simp [bump]
        rw [hb, if_neg Bool.false_ne_true, filter_ne_of_not_mem x.id hxs]
      rw [hstep]
      have hrec := foldl_fail_queue xs done
        (removeFromQueue okMedium x.id { st with queue := done ++ bump x :: xs })
        hq2 (by
          refine hnd.sublist (List.Sublist.map _ ?_)
          exact (List.sublist_cons_self x xs).append_left done)
      rw [hrec, List.map_cons, List.filter_cons]
      have : ¬ (bump x).retries < MAX_RETRIES := by
        simp only [bump]
        omega
      simp [this]
    · have hstep : processItem okMedium (fun _ => false) st x =
          { st with queue := done ++ bump x :: xs } := by
        rw [processItem]
        simp only [Bool.false_eq_true, if_false, hqueue, if_neg hret]
      rw [hstep]
      have hrec := foldl_fail_queue xs (done ++ [bump x])
        { st with queue := done ++ bump x :: xs }
        (by simp) (by
          have : ((done ++ [bump x]) ++ xs).map (·.id) =
              (done ++ x :: xs).map (·.id) := by
            simp [bump]
          rw [this]
          exact hnd)
      rw [hrec, List.map_cons, List.filter_cons]
      have : (bump x).retries < MAX_RETRIES := by
        simp only [bump]
        omega
      simp [this]

theorem processQueue_failAll_queue (st : QMState) (hnd : (st.queue.map (·.id)).Nodup) :
    ((processQueue okMedium (fun _ => false) st).1).queue =
      ((sortByPriority st.queue).map bump).filter fun it => it.retries < MAX_RETRIES := by
  rw [processQueue_eq]
  refine foldl_fail_queue (sortByPriority st.queue) [] _ (by simp) ?_
  have hperm := (sortByPriority_perm st.queue).map (·.id)
  simpa using hperm.nodup_iff.mpr hnd

theorem drainFail_mem (st : QMState) (x : QueueItem)
    (hnd : (st.queue.map (·.id)).Nodup) (hx : x ∈ st.queue)
    (hk : x.retries + 1 < MAX_RETRIES) :
    bump x ∈ ((processQueue okMedium (fun _ => false) st).1).queue := by
  rw [processQueue_failAll_queue st hnd]
  refine List.mem_filter.mpr
    ⟨List.mem_map_of_mem bump ((sortByPriority_perm st.queue).mem_iff.mpr hx), ?_⟩
  simpa [bump] using hk

theorem drainFail_nodup (st : QMState) (hnd : (st.queue.map (·.id)).Nodup) :
    ((((processQueue okMedium (fun _ => false) st).1).queue).map (·.id)).Nodup := by
  rw [processQueue_failAll_queue st hnd]
  have hsort : ((sortByPriority st.queue).map (·.id)).Nodup :=
    ((sortByPriority_perm st.queue).map (·.id)).nodup_iff.mpr hnd
  have hmap : (((sortByPriority st.queue).map bump).map (·.id)) =
      (sortByPriority st.queue).map (·.id) := by
    simp [List.map_map, Function.comp, bump]
  have hsub : ((((sortByPriority st.queue).map bump).filter
        fun it => it.retries < MAX_RETRIES).map (·.id)).Sublist
      (((sortByPriority st.queue).map bump).map (·.id)) :=
    List.Sublist.map _ (List.filter_sublist _)
  exact List.Nodup.sublist hsub (by rw [hmap]; exact hsort)

theorem drainFail_retries (st : QMState) (x y : QueueItem)
    (hnd : (st.queue.map (·.id)).Nodup) (hx : x ∈ st.queue)
    (hk : x.retries + 1 < MAX_RETRIES)
    (hy : y ∈ ((processQueue okMedium (fun _ => false) st).1).queue)
    (hid : y.id = x.id) : y = bump x := by
  have hmem := drainFail_mem st x hnd hx hk
  have hnd' := drainFail_nodup st hnd
  exact List.inj_on_of_nodup_map hnd' hy hmem (by simpa [bump] using hid)

/-! ### The claims -/

/-- C1: for every queue, a `processQueue` drain whose transport succeeds on
every item attempts a permutation of the queue in which priorities are
non-decreasing (all CRITICAL = 1 before any HIGH = 2 before any NORMAL = 3),
within one priority class in original enqueue order (the sort is stable),
and leaves the queue empty afterwards. -/
theorem claim1_priority_order_drain (m : Medium) (send : QueueItem → Bool) (st : QMState)
    (hsend : ∀ it, send it = true) :
    List.Perm (processQueue m send st).2 st.queue ∧
    (processQueue m send st).2.Pairwise (fun a b => a.priority ≤ b.priority) ∧
    (∀ p : Int, (processQueue m send st).2.filter (fun y => y.priority = p) =
      st.queue.filter (fun y => y.priority = p)) ∧
    ((processQueue m send st).1).queue = [] := by
  rw [processQueue_eq]
  refine ⟨sortByPriority_perm st.queue, sortByPriority_pairwise st.queue,
    fun p => sortByPriority_filter p st.queue, ?_⟩
  exact foldl_success_queue_nil m send hsend _ _ fun x hx => List.mem_map_of_mem (·.id) hx

/-- Witness for C1, at the spec's end-to-end scenario (A NORMAL, B CRITICAL,
C HIGH, enqueued in that order, transport always succeeding). -/
theorem claim1_priority_order_drain_witness :
    List.Perm
      (processQueue okMedium (fun _ => true)
        ⟨[⟨"A", 1, .num 1, 3, 0⟩, ⟨"B", 2, .num 2, 1, 0⟩, ⟨"C", 3, .num 3, 2, 0⟩],
          none, [], 0⟩).2
      [⟨"A", 1, .num 1, 3, 0⟩, ⟨"B", 2, .num 2, 1, 0⟩, ⟨"C", 3, .num 3, 2, 0⟩] ∧
    (processQueue okMedium (fun _ => true)
        ⟨[⟨"A", 1, .num 1, 3, 0⟩, ⟨"B", 2, .num 2, 1, 0⟩, ⟨"C", 3, .num 3, 2, 0⟩],
          none, [], 0⟩).2.Pairwise (fun a b => a.priority ≤ b.priority) ∧
    (∀ p : Int,
      (processQueue okMedium (fun _ => true)
        ⟨[⟨"A", 1, .num 1, 3, 0⟩, ⟨"B", 2, .num 2, 1, 0⟩, ⟨"C", 3, .num 3, 2, 0⟩],
          none, [], 0⟩).2.filter (fun y => y.priority = p) =
      ([⟨"A", 1, .num 1, 3, 0⟩, ⟨"B", 2, .num 2, 1, 0⟩,
        ⟨"C", 3, .num 3, 2, 0⟩] : List QueueItem).filter (fun y => y.priority = p)) ∧
    ((processQueue okMedium (fun _ => true)
        ⟨[⟨"A", 1, .num 1, 3, 0⟩, ⟨"B", 2, .num 2, 1, 0⟩, ⟨"C", 3, .num 3, 2, 0⟩],
          none, [], 0⟩).1).queue = [] :=
  claim1_priority_order_drain okMedium (fun _ => true) _ fun _ => rfl

/-- C9: `processQueue` always completes, and the attempted items are exactly
the sorted snapshot taken at the start of the drain — a permutation of the
queue, attempted in non-decreasing priority order, each item exactly once —
independently of the transport's per-item successes and failures and of the
persistence medium, so an earlier failure never prevents a later attempt. -/
theorem claim9_drain_attempts (m m' : Medium) (send send' : QueueItem → Bool)
    (st : QMState) :
    (processQueue m send st).2 = sortByPriority st.queue ∧
    List.Perm (processQueue m send st).2 st.queue ∧
    (processQueue m send st).2.Pairwise (fun a b => a.priority ≤ b.priority) ∧
    (processQueue m send st).2 = (processQueue m' send' st).2 := by
  rw [processQueue_eq m send st, processQueue_eq m' send' st]
  exact ⟨rfl, sortByPriority_perm st.queue, sortByPriority_pairwise st.queue, rfl⟩

/-- C2: an item whose delivery attempts all fail is removed from the queue
exactly after its third failed attempt: with `retries` starting at 0 it is
still present with `retries = 1` after one all-failing drain, present with
`retries = 2` after two, and gone after three. -/
theorem claim2_retry_ceiling (st : QMState) (x : QueueItem)
    (hnd : (st.queue.map (·.id)).Nodup) (hx : x ∈ st.queue) (hr : x.retries = 0) :
    (∃ y ∈ ((processQueue okMedium (fun _ => false) st).1).queue,
      y.id = x.id ∧ y.retries = 1) ∧
    (∃ y ∈ ((processQueue okMedium (fun _ => false)
        ((processQueue okMedium (fun _ => false) st).1)).1).queue,
      y.id = x.id ∧ y.retries = 2) ∧
    (∀ y ∈ ((processQueue okMedium (fun _ => false)
        ((processQueue okMedium (fun _ => false)
          ((processQueue okMedium (fun _ => false) st).1)).1)).1).queue,
      y.id ≠ x.id) := by
  have hk1 : x.retries + 1 < MAX_RETRIES := by rw [hr, MAX_RETRIES]; omega
  have h1 := drainFail_mem st x hnd hx hk1
  have hnd1 := drainFail_nodup st hnd
  have hk2 : (bump x).retries + 1 < MAX_RETRIES := by
    simp only [bump, hr, MAX_RETRIES]
    omega
  have h2 := drainFail_mem _ (bump x) hnd1 h1 hk2
  have hnd2 := drainFail_nodup _ hnd1
  refine ⟨⟨bump x, h1, rfl, by simp [bump, hr]⟩,
    ⟨bump (bump x), h2, rfl, by simp [bump, hr]⟩, ?_⟩
  intro y hy hid
  set st2 := (processQueue okMedium (fun _ => false)
    ((processQueue okMedium (fun _ => false) st).1)).1 with hst2
  have hchar := processQueue_failAll_queue st2 hnd2
  rw [hchar] at hy
  obtain ⟨hy1, hy2⟩ := List.mem_filter.mp hy
  obtain ⟨z, hz, rfl⟩ := List.mem_map.mp hy1
  have hz2 : z ∈ st2.queue := (sortByPriority_perm st2.queue).mem_iff.mp hz
  have hzid : z.id = x.id := by simpa [bump] using hid
  have hzeq : z = bump (bump x) :=
    List.inj_on_of_nodup_map hnd2 hz2 h2 (by simpa [bump] using hzid)
  rw [hzeq] at hy2
  have hy3 : (bump (bump (bump x))).retries < MAX_RETRIES := by simpa using hy2
  have hb : (bump (bump (bump x))).retries = x.retries + 1 + 1 + 1 := rfl
  have hmr : MAX_RETRIES = 3 := rfl
  rw [hb, hmr, hr] at hy3
  omega

/-- Witness for C2: a singleton queue holding one item with `retries = 0`. -/
theorem claim2_retry_ceiling_witness :
    (∃ y ∈ ((processQueue okMedium (fun _ => false)
        ⟨[⟨"a", 0, .num 0, 3, 0⟩], none, [], 0⟩).1).queue,
      y.id = (⟨"a", 0, .num 0, 3, 0⟩ : QueueItem).id ∧ y.retries = 1) ∧
    (∃ y ∈ ((processQueue okMedium (fun _ => false)
        ((processQueue okMedium (fun _ => false)
          ⟨[⟨"a", 0, .num 0, 3, 0⟩], none, [], 0⟩).1)).1).queue,
      y.id = (⟨"a", 0, .num 0, 3, 0⟩ : QueueItem).id ∧ y.retries = 2) ∧
    (∀ y ∈ ((processQueue okMedium (fun _ => false)
        ((processQueue okMedium (fun _ => false)
          ((processQueue okMedium (fun _ => false)
            ⟨[⟨"a", 0, .num 0, 3, 0⟩], none, [], 0⟩).1)).1)).1).queue,
      y.id ≠ (⟨"a", 0, .num 0, 3, 0⟩ : QueueItem).id) :=
  claim2_retry_ceiling ⟨[⟨"a", 0, .num 0, 3, 0⟩], none, [], 0⟩ ⟨"a", 0, .num 0, 3, 0⟩
    (by simp) (by simp) rfl

/-- C3 fails on the code: in the singleton queue `["a"]` with a failing
transport, the drain mutates the queue (the item's `retries` rises from 0
to 1) yet performs no persistence write at all (`saveLog` stays empty) —
the failure branch below the retry ceiling calls no `saveToStorage`. -/
theorem claim3_persist_after_mutation_cex :
    ((processQueue okMedium (fun _ => false)
        ⟨[⟨"a", 0, .num 0, 3, 0⟩], none, [], 0⟩).1).queue =
      [⟨"a", 0, .num 0, 3, 1⟩] ∧
    ((processQueue okMedium (fun _ => false)
        ⟨[⟨"a", 0, .num 0, 3, 0⟩], none, [], 0⟩).1).saveLog = [] := by
  constructor <;> rfl

/-- C3 amended: a persistence write of the full current queue follows
enqueue, removal after a successful send, and removal at the retry ceiling,
and every overflow-eviction cut re-attempts a write; but a failed send below
the retry ceiling performs no persistence write at all, even though it
mutates the retry counter, so the persisted record may lag the in-memory
queue until the next removal or enqueue. -/
theorem claim3_amended_persist_points (st : QMState) (id : String) (ts : Int)
    (d : JVal) (p : Int) (it₀ it₁ it₂ : QueueItem)
    (h₁ : MAX_RETRIES ≤ it₁.retries + 1) (h₂ : it₂.retries + 1 < MAX_RETRIES) :
    (enqueue okMedium id ts d p st).saveLog =
      st.saveLog ++ [(st.queue ++ [(⟨id, ts, d, p, 0⟩ : QueueItem)]).map toRaw] ∧
    (processItem okMedium (fun _ => true) st it₀).saveLog =
      st.saveLog ++ [(st.queue.filter fun item => item.id ≠ it₀.id).map toRaw] ∧
    (processItem okMedium (fun _ => false) st it₁).saveLog =
      st.saveLog ++
        [((st.queue.map fun x =>
            if x.id = it₁.id then { x with retries := it₁.retries + 1 } else x).filter
          fun item => item.id ≠ it₁.id).map toRaw] ∧
    ((processItem okMedium (fun _ => false) st it₂).saveLog = st.saveLog ∧
      (processItem okMedium (fun _ => false) st it₂).queue =
        st.queue.map fun x =>
          if x.id = it₂.id then { x with retries := it₂.retries + 1 } else x) ∧
    (∀ (m : Medium) (s : QMState),
      ((attemptWrite m s).2).saveLog = s.saveLog ++ [s.queue.map toRaw]) := by
  refine ⟨rfl, rfl, ?_, ?_, ?_⟩
  · have hstep : processItem okMedium (fun _ => false) st it₁ =
        removeFromQueue okMedium it₁.id
          { st with queue := st.queue.map fun x =>
              if x.id = it₁.id then { x with retries := it₁.retries + 1 } else x } := by
      rw [processItem]
      simp only [Bool.false_eq_true, if_false, if_pos h₁]
    rw [hstep, removeFromQueue_okMedium]
  · have hstep : processItem okMedium (fun _ => false) st it₂ =
        { st with queue := st.queue.map fun x =>
            if x.id = it₂.id then { x with retries := it₂.retries + 1 } else x } := by
      rw [processItem]
      simp only [Bool.false_eq_true, if_false, if_neg (by omega : ¬ MAX_RETRIES ≤ it₂.retries + 1)]
    rw [hstep]
    exact ⟨rfl, rfl⟩
  · intro m s
    rw [attemptWrite_eq]

/-- Witness for C3 amended, exercising the no-persist branch at a concrete
state: one pending item with `retries = 0`, failing transport. -/
theorem claim3_amended_persist_points_witness :
    (processItem okMedium (fun _ => false)
        ⟨[⟨"a", 0, .num 0, 3, 0⟩], none, [], 0⟩ ⟨"a", 0, .num 0, 3, 0⟩).saveLog =
      (⟨[⟨"a", 0, .num 0, 3, 0⟩], none, [], 0⟩ : QMState).saveLog ∧
    (processItem okMedium (fun _ => false)
        ⟨[⟨"a", 0, .num 0, 3, 0⟩], none, [], 0⟩ ⟨"a", 0, .num 0, 3, 0⟩).queue =
      (⟨[⟨"a", 0, .num 0, 3, 0⟩], none, [], 0⟩ : QMState).queue.map fun x =>
        if x.id = "a" then { x with retries := 0 + 1 } else x :=
  (claim3_amended_persist_points ⟨[⟨"a", 0, .num 0, 3, 0⟩], none, [], 0⟩
    "a" 0 (.num 0) 3 ⟨"a", 0, .num 0, 3, 0⟩ ⟨"a", 0, .num 0, 3, 2⟩ ⟨"a", 0, .num 0, 3, 0⟩
    (by decide) (by decide)).2.2.2.1

/-- Outcome of the overflow recursion, for any fuel at least the queue
length: either some cut saved successfully and the stored blob is exactly
the serialized final queue, or the final write failed with a non-quota
error, or the queue was emptied without a successful save and the
overflow-failure line was logged once. -/
theorem overflowAux_outcome (m : Medium) :
    ∀ (fuel : Nat) (st : QMState), st.queue.length ≤ fuel →
      (overflowAux m fuel st).store =
          some (.arr ((overflowAux m fuel st).queue.map toRaw)) ∨
        m ((overflowAux m fuel st).queue.map toRaw) = .otherError ∨
        ((overflowAux m fuel st).queue = [] ∧
          (overflowAux m fuel st).overflowFailures = st.overflowFailures + 1) := by
  intro fuel
  induction fuel with
  | zero =>
    intro st hlen
    have hnil : st.queue = [] := List.eq_nil_of_length_eq_zero (Nat.le_zero.mp hlen)
    rw [overflowAux_zero]
    exact Or.inr (Or.inr ⟨hnil, rfl⟩)
  | succ n ih =>
    intro st hlen
    by_cases h : 0 < st.queue.length
    · rw [overflowAux_succ_pos m n st h]
      rcases hA : attemptWrite m { st with queue := st.queue.drop ((st.queue.length + 4) / 5) }
        with ⟨res, st₂⟩
      have hA' := hA
      rw [attemptWrite_eq] at hA'
      have hres : res = m ((st.queue.drop ((st.queue.length + 4) / 5)).map toRaw) := by
        have := congrArg Prod.fst hA'
        simpa using this.symm
      have hst₂ := congrArg Prod.snd hA'
      simp only at hst₂
      cases res with
      | ok =>
        left
        rw [← hst₂]
        dsimp only
        rw [if_pos hres.symm]
      | otherError =>
        right; left
        rw [← hst₂]
        dsimp only
        exact hres.symm
      | quotaExceeded =>
        have hq₂ : st₂.queue = st.queue.drop ((st.queue.length + 4) / 5) := by
          rw [← hst₂]
        have hf₂ : st₂.overflowFailures = st.overflowFailures := by
          rw [← hst₂]
        have hlen₂ : st₂.queue.length ≤ n := by
          rw [hq₂, List.length_drop]
          omega
        rcases ih st₂ hlen₂ with hcase | hcase | hcase
        · exact Or.inl hcase
        · exact Or.inr (Or.inl hcase)
        · exact Or.inr (Or.inr ⟨hcase.1, by rw [hcase.2, hf₂]⟩)
    · rw [overflowAux_succ_nil m n st h]
      have hnil : st.queue = [] := List.eq_nil_of_length_eq_zero (by omega)
      exact Or.inr (Or.inr ⟨hnil, rfl⟩)

/-- C4 amended: because `saveToStorage` swallows its own errors, the
overflow loop's `catch` never fires and its attempt counter never advances
past 1. On a quota-exceeded write failure the code removes
`ceil(20% of the current length)` items from the front — never 40/60/80/100%
— and retries through a nested recursion, with no bound of five on the
number of cuts; it stops at the first successful save (the stored blob then
matching the remaining queue), on a non-quota error, or when the queue has
been emptied, in which case the failure is logged without throwing. -/
theorem claim4_amended_overflow_behaviour (m : Medium) (st : QMState) :
    (∃ k, (saveToStorage m st).queue = st.queue.drop k) ∧
    ((saveToStorage m st).store =
        some (.arr ((saveToStorage m st).queue.map toRaw)) ∨
      m ((saveToStorage m st).queue.map toRaw) = .otherError ∨
      ((saveToStorage m st).queue = [] ∧
        (saveToStorage m st).overflowFailures = st.overflowFailures + 1)) := by
  refine ⟨saveToStorage_queue_drop m st, ?_⟩
  rw [saveToStorage_unfold]
  rcases hA : attemptWrite m st with ⟨res, st'⟩
  have hA' := hA
  rw [attemptWrite_eq] at hA'
  have hres : res = m (st.queue.map toRaw) := by
    have := congrArg Prod.fst hA'
    simpa using this.symm
  have hst' := congrArg Prod.snd hA'
  simp only at hst'
  cases res with
  | ok =>
    left
    rw [← hst']
    dsimp only
    rw [if_pos hres.symm]
  | otherError =>
    right; left
    rw [← hst']
    dsimp only
    exact hres.symm
  | quotaExceeded =>
    have hf : st'.overflowFailures = st.overflowFailures := by rw [← hst']
    show (handleStorageOverflow m st').store =
        some (.arr ((handleStorageOverflow m st').queue.map toRaw)) ∨
      m ((handleStorageOverflow m st').queue.map toRaw) = .otherError ∨
      ((handleStorageOverflow m st').queue = [] ∧
        (handleStorageOverflow m st').overflowFailures = st.overflowFailures + 1)
    rw [handleStorageOverflow_unfold]
    rcases overflowAux_outcome m st'.queue.length st' (Nat.le_refl _)
      with hcase | hcase | hcase
    · exact Or.inl hcase
    · exact Or.inr (Or.inl hcase)
    · exact Or.inr (Or.inr ⟨hcase.1, by rw [hcase.2, hf]⟩)

/-- C4 fails on the code: with ten queued items on a medium that accepts at
most six, the persistence write fails with quota-exceeded, and the specified
policy (cut 20%, 40%, ... of the current length on attempts 1..5, retry
after each cut) would stop with four items — cut 2 of 10, then 4 of 8 — but
the code stops with six items, because every round cuts only 20% of the
current length: 2 of 10, then 2 of 8. -/
theorem claim4_overflow_schedule_cex :
    (saveToStorage quotaAbove6 ⟨tenItems, none, [], 0⟩).queue.length = 6 ∧
    (specOverflowPolicy quotaAbove6
        ⟨tenItems, none, [tenItems.map toRaw], 0⟩).queue.length = 4 ∧
    (saveToStorage quotaAbove6 ⟨tenItems, none, [], 0⟩).queue ≠
      (specOverflowPolicy quotaAbove6 ⟨tenItems, none, [tenItems.map toRaw], 0⟩).queue := by
  refine ⟨by decide, by decide, by decide⟩

theorem overflowAux_fuel_irrel (m : Medium) :
    ∀ (f₁ f₂ : Nat) (st : QMState), st.queue.length ≤ f₁ → st.queue.length ≤ f₂ →
      overflowAux m f₁ st = overflowAux m f₂ st := by
  intro f₁
  induction f₁ with
  | zero =>
    intro f₂ st h1 _
    cases f₂ with
    | zero => rfl
    | succ k =>
      rw [overflowAux_zero, overflowAux_succ_nil m k st (by omega)]
  | succ n ih =>
    intro f₂ st h1 h2
    cases f₂ with
    | zero =>
      rw [overflowAux_zero, overflowAux_succ_nil m n st (by omega)]
    | succ k =>
      by_cases h : 0 < st.queue.length
      · rw [overflowAux_succ_pos m n st h, overflowAux_succ_pos m k st h]
        rcases hA : attemptWrite m { st with queue := st.queue.drop ((st.queue.length + 4) / 5) }
          with ⟨res, st₂⟩
        have hA' := hA
        rw [attemptWrite_eq] at hA'
        have hst₂ := congrArg Prod.snd hA'
        simp only at hst₂
        cases res with
        | ok => rfl
        | otherError => rfl
        | quotaExceeded =>
          have hq₂ : st₂.queue = st.queue.drop ((st.queue.length + 4) / 5) := by
            rw [← hst₂]
          have hlen₂ : st₂.queue.length ≤ n ∧ st₂.queue.length ≤ k := by
            rw [hq₂, List.length_drop]
            omega
          exact ih k st₂ hlen₂.1 hlen₂.2
      · rw [overflowAux_succ_nil m n st h, overflowAux_succ_nil m k st h]

theorem overflowAux_saveLog_le (m : Medium) :
    ∀ (fuel : Nat) (st : QMState), st.queue.length ≤ fuel →
      (overflowAux m fuel st).saveLog.length ≤ st.saveLog.length + st.queue.length := by
  intro fuel
  induction fuel with
  | zero =>
    intro st _
    rw [overflowAux_zero]
    show st.saveLog.length ≤ st.saveLog.length + st.queue.length
    omega
  | succ n ih =>
    intro st hlen
    by_cases h : 0 < st.queue.length
    · rw [overflowAux_succ_pos m n st h]
      rcases hA : attemptWrite m { st with queue := st.queue.drop ((st.queue.length + 4) / 5) }
        with ⟨res, st₂⟩
      have hA' := hA
      rw [attemptWrite_eq] at hA'
      have hst₂ := congrArg Prod.snd hA'
      simp only at hst₂
      have hq₂ : st₂.queue = st.queue.drop ((st.queue.length + 4) / 5) := by rw [← hst₂]
      have hlog₂ : st₂.saveLog.length = st.saveLog.length + 1 := by
        rw [← hst₂]
        simp
      cases res with
      | ok =>
        show st₂.saveLog.length ≤ st.saveLog.length + st.queue.length
        omega
      | otherError =>
        show st₂.saveLog.length ≤ st.saveLog.length + st.queue.length
        omega
      | quotaExceeded =>
        show (overflowAux m n st₂).saveLog.length ≤ st.saveLog.length + st.queue.length
        have hlen₂ : st₂.queue.length ≤ n := by
          rw [hq₂, List.length_drop]
          omega
        have := ih st₂ hlen₂
        have hlq : st₂.queue.length = st.queue.length - (st.queue.length + 4) / 5 := by
          rw [hq₂, List.length_drop]
        omega
    · rw [overflowAux_succ_nil m n st h]
      show st.saveLog.length ≤ st.saveLog.length + st.queue.length
      omega

/-- C10: the mutual recursion between `saveToStorage` and
`handleStorageOverflow` terminates for every queue and every medium, even
one on which each write fails with quota-exceeded: a cut on a non-empty
queue removes `ceil(length / 5) ≥ 1` items, so fuel equal to the queue
length already reaches the base case (any larger fuel computes the same
result, i.e. the recursion bottoms out and returns normally), and the
recursion attempts at most one write per queue item on top of the log it
started with. -/
theorem claim10_overflow_terminates (m : Medium) (st : QMState) (fuel : Nat)
    (hfuel : st.queue.length ≤ fuel) :
    overflowAux m fuel st = handleStorageOverflow m st ∧
    (handleStorageOverflow m st).saveLog.length ≤ st.saveLog.length + st.queue.length ∧
    (0 < st.queue.length → 1 ≤ (st.queue.length + 4) / 5) := by
  refine ⟨?_, ?_, fun h => by omega⟩
  · rw [handleStorageOverflow_unfold]
    exact overflowAux_fuel_irrel m fuel st.queue.length st hfuel (Nat.le_refl _)
  · rw [handleStorageOverflow_unfold]
    exact overflowAux_saveLog_le m st.queue.length st (Nat.le_refl _)

/-- Witness for C10: a two-item queue, fuel 7, on a medium that always
fails with quota-exceeded. -/
theorem claim10_overflow_terminates_witness :
    overflowAux (fun _ => .quotaExceeded) 7
        ⟨[⟨"a", 0, .num 0, 3, 0⟩, ⟨"b", 1, .num 1, 1, 0⟩], none, [], 0⟩ =
      handleStorageOverflow (fun _ => .quotaExceeded)
        ⟨[⟨"a", 0, .num 0, 3, 0⟩, ⟨"b", 1, .num 1, 1, 0⟩], none, [], 0⟩ ∧
    (handleStorageOverflow (fun _ => .quotaExceeded)
        ⟨[⟨"a", 0, .num 0, 3, 0⟩, ⟨"b", 1, .num 1, 1, 0⟩], none, [], 0⟩).saveLog.length ≤
      (⟨[⟨"a", 0, .num 0, 3, 0⟩, ⟨"b", 1, .num 1, 1, 0⟩], none, [], 0⟩ : QMState).saveLog.length +
        (⟨[⟨"a", 0, .num 0, 3, 0⟩, ⟨"b", 1, .num 1, 1, 0⟩], none, [], 0⟩ : QMState).queue.length ∧
    (0 < (⟨[⟨"a", 0, .num 0, 3, 0⟩, ⟨"b", 1, .num 1, 1, 0⟩], none, [], 0⟩ : QMState).queue.length →
      1 ≤ ((⟨[⟨"a", 0, .num 0, 3, 0⟩, ⟨"b", 1, .num 1, 1, 0⟩], none, [], 0⟩ : QMState).queue.length + 4) / 5) :=
  claim10_overflow_terminates (fun _ => .quotaExceeded)
    ⟨[⟨"a", 0, .num 0, 3, 0⟩, ⟨"b", 1, .num 1, 1, 0⟩], none, [], 0⟩ 7 (by decide)

/-! ### Loading, round trips, and validation -/

theorem fromRaw_toRaw (it : QueueItem) (h : it.data ≠ .undefined) :
    fromRaw (toRaw it) = some it := by
  simp [toRaw, fromRaw, h]

theorem filterMap_fromRaw_map_toRaw :
    ∀ l : List QueueItem, (∀ it ∈ l, it.data ≠ .undefined) →
      (l.map toRaw).filterMap fromRaw = l
  | [], _ => rfl
  | x :: xs, h => by
    rw [List.map_cons, List.filterMap_cons, fromRaw_toRaw x (h x (by simp))]
    simp [filterMap_fromRaw_map_toRaw xs fun it hit => h it (by simp [hit])]

theorem fromRaw_eq_none_of_invalid (it : RawItem) (h : validItem it = false) :
    fromRaw it = none := by
  rcases it with ⟨i, t, d, p, r⟩
  cases i with
  | str si =>
    cases t with
    | num tn =>
      cases p with
      | num pn =>
        cases r with
        | num rn =>
          have hd : d = .undefined := by
            simpa [validItem, JVal.isStr, JVal.isNum] using h
          simp [fromRaw, hd]
        | str _ => rfl
        | other => rfl
        | undefined => rfl
      | str _ => rfl
      | other => rfl
      | undefined => rfl
    | str _ => rfl
    | other => rfl
    | undefined => rfl
  | num _ => rfl
  | other => rfl
  | undefined => rfl

theorem enqueue_okMedium (id : String) (ts : Int) (d : JVal) (p : Int) (st : QMState) :
    enqueue okMedium id ts d p st =
      { st with
        queue := st.queue ++ [(⟨id, ts, d, p, 0⟩ : QueueItem)]
        store := some (.arr ((st.queue ++ [(⟨id, ts, d, p, 0⟩ : QueueItem)]).map toRaw))
        saveLog := st.saveLog ++
          [(st.queue ++ [(⟨id, ts, d, p, 0⟩ : QueueItem)]).map toRaw] } := rfl

theorem enqueueAll_cons (m : Medium) (i : EnqInput) (is : List EnqInput) (st : QMState) :
    enqueueAll m (i :: is) st =
      enqueueAll m is (enqueue m i.id i.ts i.data i.priority st) := rfl

theorem enqueueAll_queue :
    ∀ (inputs : List EnqInput) (st : QMState),
      (enqueueAll okMedium inputs st).queue =
        st.queue ++ inputs.map fun i => (⟨i.id, i.ts, i.data, i.priority, 0⟩ : QueueItem)
  | [], st => by simp [enqueueAll]
  | i :: is, st => by
    rw [enqueueAll_cons, enqueueAll_queue is, enqueue_okMedium]
    simp

theorem enqueueAll_store :
    ∀ (inputs : List EnqInput), inputs ≠ [] → ∀ st : QMState,
      (enqueueAll okMedium inputs st).store =
        some (.arr (((enqueueAll okMedium inputs st).queue).map toRaw))
  | [], hne, _ => absurd rfl hne
  | i :: is, _, st => by
    cases is with
    | nil => rfl
    | cons j js =>
      rw [enqueueAll_cons]
      exact enqueueAll_store (j :: js) (by simp) _

/-- C5 fails on the code: after A = ("a", NORMAL, t = 1) and
B = ("b", CRITICAL, t = 2) are enqueued and a drain with a failing transport
runs (which sorts the live array to [B, A]), enqueueing C = ("c", t = 3) on
a full medium triggers eviction, which removes the array prefix: the evicted
item is B, enqueued second, while A, the earliest-enqueued item held, stays
— so eviction is not oldest-first on this reachable state. -/
theorem claim5_oldest_end_eviction_cex :
    ((processQueue quotaAbove2 (fun _ => false)
        (enqueue quotaAbove2 "b" 2 (.num 0) 1
          (enqueue quotaAbove2 "a" 1 (.num 0) 3 (initQM none)))).1).queue.map
        (fun x => (x.id, x.timestamp)) = [("b", 2), ("a", 1)] ∧
    (enqueue quotaAbove2 "c" 3 (.num 0) 3
        ((processQueue quotaAbove2 (fun _ => false)
          (enqueue quotaAbove2 "b" 2 (.num 0) 1
            (enqueue quotaAbove2 "a" 1 (.num 0) 3 (initQM none)))).1)).queue.map (·.id) =
      ["a", "c"] := by
  exact ⟨rfl, rfl⟩

/-- C5 amended: overflow eviction always removes a prefix of the queue's
current in-memory order — which coincides with enqueue order only as long
as no `processQueue` sort has reordered the array. Whenever the current
order is sorted by timestamp (in particular in enqueue-only histories), the
evicted items are exactly a set of oldest items: every evicted timestamp is
at most every surviving timestamp. -/
theorem claim5_amended_prefix_eviction (m : Medium) (st : QMState)
    (hts : st.queue.Pairwise fun a b => a.timestamp ≤ b.timestamp) :
    ∃ k, (handleStorageOverflow m st).queue = st.queue.drop k ∧
      ∀ x ∈ st.queue.take k, ∀ y ∈ st.queue.drop k, x.timestamp ≤ y.timestamp := by
  rw [handleStorageOverflow_unfold]
  obtain ⟨k, hk⟩ := overflowAux_queue_drop m st.queue.length st
  refine ⟨k, hk, ?_⟩
  have hsplit : st.queue.Pairwise (fun a b => a.timestamp ≤ b.timestamp) := hts
  rw [← List.take_append_drop k st.queue] at hsplit
  exact (List.pairwise_append.mp hsplit).2.2

/-- Witness for C5 amended: a timestamp-sorted two-item queue on an
always-full medium. -/
theorem claim5_amended_prefix_eviction_witness :
    ∃ k, (handleStorageOverflow (fun _ => .quotaExceeded)
        ⟨[⟨"a", 1, .num 0, 3, 0⟩, ⟨"b", 2, .num 0, 1, 0⟩], none, [], 0⟩).queue =
      (⟨[⟨"a", 1, .num 0, 3, 0⟩, ⟨"b", 2, .num 0, 1, 0⟩], none, [], 0⟩ : QMState).queue.drop k ∧
      ∀ x ∈ (⟨[⟨"a", 1, .num 0, 3, 0⟩, ⟨"b", 2, .num 0, 1, 0⟩], none, [], 0⟩ : QMState).queue.take k,
        ∀ y ∈ (⟨[⟨"a", 1, .num 0, 3, 0⟩, ⟨"b", 2, .num 0, 1, 0⟩], none, [], 0⟩ : QMState).queue.drop k,
          x.timestamp ≤ y.timestamp :=
  claim5_amended_prefix_eviction (fun _ => .quotaExceeded)
    ⟨[⟨"a", 1, .num 0, 3, 0⟩, ⟨"b", 2, .num 0, 1, 0⟩], none, [], 0⟩ (by decide)

/-- C6 fails on the code as universally stated: an item enqueued with
`data = undefined` is appended to the in-memory queue (N = 1), but
`JSON.stringify` drops the field and the load-time validator rejects the
record, so rebuilding from the persisted store yields 0 items, not N. -/
theorem claim6_roundtrip_cex :
    (enqueue okMedium "a" 0 .undefined 3 (initQM none)).queue.length = 1 ∧
    (initQM (enqueue okMedium "a" 0 .undefined 3 (initQM none)).store).queue = [] := by
  exact ⟨rfl, rfl⟩

/-- C6 amended: for every sequence of N enqueued items whose payloads are
defined (not `undefined`), with all saves succeeding, rebuilding a fresh
queue from the persisted record yields exactly the same N items — same id,
timestamp, data, priority, and `retries = 0` — the persisted record being
the queue stripped to the five fields by `toRaw`. -/
theorem claim6_amended_roundtrip (inputs : List EnqInput)
    (hdef : ∀ i ∈ inputs, i.data ≠ .undefined) :
    (enqueueAll okMedium inputs (initQM none)).queue =
      (inputs.map fun i => (⟨i.id, i.ts, i.data, i.priority, 0⟩ : QueueItem)) ∧
    (initQM (enqueueAll okMedium inputs (initQM none)).store).queue =
      (enqueueAll okMedium inputs (initQM none)).queue ∧
    (initQM (enqueueAll okMedium inputs (initQM none)).store).queue.length =
      inputs.length := by
  have hq : (enqueueAll okMedium inputs (initQM none)).queue =
      inputs.map fun i => (⟨i.id, i.ts, i.data, i.priority, 0⟩ : QueueItem) := by
    rw [enqueueAll_queue]
    rfl
  have hload : (initQM (enqueueAll okMedium inputs (initQM none)).store).queue =
      (enqueueAll okMedium inputs (initQM none)).queue := by
    cases inputs with
    | nil => rfl
    | cons i is =>
      rw [enqueueAll_store (i :: is) (by simp)]
      show ((((enqueueAll okMedium (i :: is) (initQM none)).queue).map toRaw).filterMap
        fromRaw) = _
      refine filterMap_fromRaw_map_toRaw _ ?_
      intro it hit
      rw [hq] at hit
      obtain ⟨j, hj, rfl⟩ := List.mem_map.mp hit
      exact hdef j hj
  refine ⟨hq, hload, ?_⟩
  rw [hload, hq, List.length_map]

/-- Witness for C6 amended: two items with defined payloads. -/
theorem claim6_amended_roundtrip_witness :
    (enqueueAll okMedium [⟨"a", 1, .num 5, 3⟩, ⟨"b", 2, .other, 1⟩] (initQM none)).queue =
      (([⟨"a", 1, .num 5, 3⟩, ⟨"b", 2, .other, 1⟩] : List EnqInput).map
        fun i => (⟨i.id, i.ts, i.data, i.priority, 0⟩ : QueueItem)) ∧
    (initQM (enqueueAll okMedium [⟨"a", 1, .num 5, 3⟩, ⟨"b", 2, .other, 1⟩]
        (initQM none)).store).queue =
      (enqueueAll okMedium [⟨"a", 1, .num 5, 3⟩, ⟨"b", 2, .other, 1⟩] (initQM none)).queue ∧
    (initQM (enqueueAll okMedium [⟨"a", 1, .num 5, 3⟩, ⟨"b", 2, .other, 1⟩]
        (initQM none)).store).queue.length =
      ([⟨"a", 1, .num 5, 3⟩, ⟨"b", 2, .other, 1⟩] : List EnqInput).length :=
  claim6_amended_roundtrip [⟨"a", 1, .num 5, 3⟩, ⟨"b", 2, .other, 1⟩] (by decide)

/-- C7 fails on the code: a persisted record that parses but whose only item
fails validation (a string `priority`) yields an empty queue, but the stored
record is left in place — `localStorage.removeItem` runs only in the
`catch`, which a validation failure never reaches. -/
theorem claim7_store_cleared_cex :
    (initQM (some (.arr [⟨.str "a", .num 0, .num 0, .str "high", .num 0⟩]))).queue = [] ∧
    (initQM (some (.arr [⟨.str "a", .num 0, .num 0, .str "high", .num 0⟩]))).store =
      some (.arr [⟨.str "a", .num 0, .num 0, .str "high", .num 0⟩]) ∧
    some (.arr [⟨.str "a", .num 0, .num 0, .str "high", .num 0⟩]) ≠ (none : Option Blob) := by
  refine ⟨rfl, rfl, by decide⟩

/-- C7 amended: reconstruction drops invalid items silently — a parseable
record all of whose items fail validation yields an empty queue with the
stored record left untouched — while the stored record is deleted only on a
read/parse failure (a corrupt record), which also yields an empty queue;
no error is raised in either case. -/
theorem claim7_amended_invalid_handling (items : List RawItem)
    (hinv : ∀ it ∈ items, validItem it = false) :
    (initQM (some (.arr items))).queue = [] ∧
    (initQM (some (.arr items))).store = some (.arr items) ∧
    (initQM (some .corrupt)).queue = [] ∧
    (initQM (some .corrupt)).store = none := by
  refine ⟨?_, rfl, rfl, rfl⟩
  show items.filterMap fromRaw = []
  rw [List.filterMap_eq_nil_iff]
  exact fun it hit => fromRaw_eq_none_of_invalid it (hinv it hit)

/-- Witness for C7 amended: a one-item record with a string `priority`. -/
theorem claim7_amended_invalid_handling_witness :
    (initQM (some (.arr [⟨.str "a", .num 0, .num 0, .str "high", .num 0⟩]))).queue = [] ∧
    (initQM (some (.arr [⟨.str "a", .num 0, .num 0, .str "high", .num 0⟩]))).store =
      some (.arr [⟨.str "a", .num 0, .num 0, .str "high", .num 0⟩]) ∧
    (initQM (some .corrupt)).queue = [] ∧
    (initQM (some .corrupt)).store = none :=
  claim7_amended_invalid_handling [⟨.str "a", .num 0, .num 0, .str "high", .num 0⟩]
    (by decide)

/-- C8: `enqueue` is total for every behaviour of the persistence medium —
the embedding returns a state on success, quota-exceeded, and other write
failures alike, mirroring that the source catches every exception below
`enqueue`. It always appends the item, built with the supplied fresh id and
timestamp and `retries = 0`, to the in-memory queue (afterwards only the
internal overflow path may drop a prefix); when every write succeeds the
queue is exactly the old queue plus the new item and the store holds its
serialization; and a quota-exceeded write failure hands the appended state
to `handleStorageOverflow` instead of raising. -/
theorem claim8_enqueue_total (m : Medium) (st : QMState) (id : String) (ts : Int)
    (d : JVal) (p : Int) :
    (∃ k, (enqueue m id ts d p st).queue =
      (st.queue ++ [(⟨id, ts, d, p, 0⟩ : QueueItem)]).drop k) ∧
    ((∀ b, m b = .ok) → enqueue m id ts d p st =
      { st with
        queue := st.queue ++ [(⟨id, ts, d, p, 0⟩ : QueueItem)]
        store := some (.arr ((st.queue ++ [(⟨id, ts, d, p, 0⟩ : QueueItem)]).map toRaw))
        saveLog := st.saveLog ++
          [(st.queue ++ [(⟨id, ts, d, p, 0⟩ : QueueItem)]).map toRaw] }) ∧
    (m ((st.queue ++ [(⟨id, ts, d, p, 0⟩ : QueueItem)]).map toRaw) = .quotaExceeded →
      enqueue m id ts d p st =
        handleStorageOverflow m
          { st with
            queue := st.queue ++ [(⟨id, ts, d, p, 0⟩ : QueueItem)]
            saveLog := st.saveLog ++
              [(st.queue ++ [(⟨id, ts, d, p, 0⟩ : QueueItem)]).map toRaw] }) := by
  refine ⟨?_, ?_, ?_⟩
  · exact saveToStorage_queue_drop m
      { st with queue := st.queue ++ [(⟨id, ts, d, p, 0⟩ : QueueItem)] }
  · intro hm
    show saveToStorage m { st with queue := st.queue ++ [(⟨id, ts, d, p, 0⟩ : QueueItem)] } = _
    rw [saveToStorage_unfold, attemptWrite_eq]
    simp [hm]
  · intro hquota
    show saveToStorage m { st with queue := st.queue ++ [(⟨id, ts, d, p, 0⟩ : QueueItem)] } = _
    rw [saveToStorage_unfold, attemptWrite_eq]
    dsimp only
    rw [hquota]
    simp [hquota]

/-- Witness for C8, on the all-succeeding medium. -/
theorem claim8_enqueue_total_witness :
    (∃ k, (enqueue okMedium "a" 7 (.num 1) 1 (initQM none)).queue =
      ((initQM none).queue ++ [(⟨"a", 7, .num 1, 1, 0⟩ : QueueItem)]).drop k) ∧
    enqueue okMedium "a" 7 (.num 1) 1 (initQM none) =
      { initQM none with
        queue := (initQM none).queue ++ [(⟨"a", 7, .num 1, 1, 0⟩ : QueueItem)]
        store := some (.arr (((initQM none).queue ++
          [(⟨"a", 7, .num 1, 1, 0⟩ : QueueItem)]).map toRaw))
        saveLog := (initQM none).saveLog ++
          [((initQM none).queue ++ [(⟨"a", 7, .num 1, 1, 0⟩ : QueueItem)]).map toRaw] } :=
  ⟨(claim8_enqueue_total okMedium (initQM none) "a" 7 (.num 1) 1).1,
    (claim8_enqueue_total okMedium (initQM none) "a" 7 (.num 1) 1).2.1 fun _ => rfl⟩

end QueueManager
